import Mathlib

/-! Shallow embedding of the safmc-groundcontrol2 core: `src/core/manager.py`
(`ESPKenisisManager`) and `src/core/target.py` (`Target`).  The serial line
framing of `__read_serial`, the `targets_update` handler, the ROS subscription
reconciliation of `__update_ros_subs`, the channel-override safety policy, and
the connect/disconnect lifecycle are translated into executable Lean
definitions; external effects (serial writes, UI callback invocations,
subscription create/destroy calls) are returned as explicit outputs. -/

/-- JSON values as carried by the newline-delimited serial protocol. -/
inductive J where
  | null : J
  | jbool : Bool → J
  | jint : Int → J
  | jstr : String → J
  | jarr : List J → J
  | jobj : List (String × J) → J

/-- A decoded JSON object (a Python dict), as an insertion-ordered
key/value list. -/
abbrev JObj := List (String × J)

/-- The `Target` dataclass of `src/core/target.py`. -/
structure Target where
  id : Int
  name : String
  mac : String
  channels : List Int
  connection_state : Bool
  last_successful_send : Int
  is_channels_overridden : Bool
  override_timeout_remaining : Int
deriving DecidableEq

/-- Field names of the dataclass (`Target.get_fields`), in declaration order. -/
def Target.get_fields : List String :=
  ["id", "name", "mac", "channels", "connection_state",
   "last_successful_send", "is_channels_overridden",
   "override_timeout_remaining"]

/-- The mutable state of `ESPKenisisManager`.  Handles to external objects
(serial port, threads, ROS node, subscription objects) are identified by the
`Nat` at which they were allocated; `next_id` is the allocation counter used
to model creation of fresh objects. -/
structure ManagerState where
  serial : Option Nat
  is_connected : Bool
  read_serial_thread : Option Nat
  targets : List Target
  ros_node : Option Nat
  ros_thread : Option Nat
  ros_subs : List (Int × Nat)
  is_ros_running : Bool
  next_id : Nat
deriving DecidableEq

/-- The state built by `ESPKenisisManager.__init__`. -/
def initState : ManagerState :=
  { serial := none, is_connected := false, read_serial_thread := none,
    targets := [], ros_node := none, ros_thread := none, ros_subs := [],
    is_ros_running := false, next_id := 0 }

/-- Python `buffer.split("\n")`, split into the complete segments and the
final segment (`lines`, `lines.pop()` in `__read_serial`). -/
def splitNl : List Char → List (List Char) × List Char
  | [] => ([], [])
  | c :: cs =>
    if c = '\n' then ([] :: (splitNl cs).1, (splitNl cs).2)
    else
      match splitNl cs with
      | ([], t) => ([], c :: t)
      | (q :: qs, t) => ((c :: q) :: qs, t)

/-- ASCII whitespace as stripped by Python `str.strip()` (space, tab, CR,
LF, vertical tab, form feed; `str.strip()` also strips a few further Unicode
space code points not produced by this ASCII-framed wire protocol). -/
def isSpace (c : Char) : Bool :=
  c = ' ' || c = '\t' || c = '\r' || c = '\n' || c = '\x0b' || c = '\x0c'

/-- Python `line.strip()`. -/
def strip (l : List Char) : List Char :=
  ((l.dropWhile isSpace).reverse.dropWhile isSpace).reverse

/-- The per-line treatment of `__read_serial`: each complete segment is
stripped, and empty lines are skipped (`if not line: continue`). -/
def emitLines (segs : List (List Char)) : List (List Char) :=
  (segs.map strip).filter (fun l => !l.isEmpty)

/-- One buffer/split/emit round of `__read_serial`: append the newly read
data to the accumulator, split on newline, keep the final (possibly
incomplete) segment as the new accumulator, and emit the stripped non-empty
complete lines. -/
def feedLines (buf chunk : List Char) : List Char × List (List Char) :=
  ((splitNl (buf ++ chunk)).2, emitLines (splitNl (buf ++ chunk)).1)

/-- Iterated `feedLines` over a sequence of partial deliveries, collecting
all emitted lines in order. -/
def feedChunks (buf : List Char) : List (List Char) → List Char × List (List Char)
  | [] => (buf, [])
  | c :: cs =>
    ((feedChunks (feedLines buf c).1 cs).1,
     (feedLines buf c).2 ++ (feedChunks (feedLines buf c).1 cs).2)

/-- How `splitNl` results of two consecutive byte deliveries combine: the
last (incomplete) segment of the first delivery is glued onto the first
segment of the second. -/
def mergeSplit (r₁ r₂ : List (List Char) × List Char) :
    List (List Char) × List Char :=
  match r₂.1 with
  | [] => (r₁.1, r₁.2 ++ r₂.2)
  | q :: qs => (r₁.1 ++ (r₁.2 ++ q) :: qs, r₂.2)

/-- Python `data["targets"]`-style lookup on a decoded JSON object. -/
def recLookup (data : JObj) (k : String) : Option J :=
  match data with
  | [] => none
  | kv :: rest => if kv.1 == k then some kv.2 else recLookup rest k

/-- Python `field in target` for a dict candidate record. -/
def recHasField (r : JObj) (f : String) : Bool :=
  r.any (fun kv => kv.1 == f)

/-- The validation of `__handle_targets_update`:
`all(field in target for field in required_fields)`. -/
def hasRequiredFields (r : JObj) : Bool :=
  Target.get_fields.all (recHasField r)

/-- View a JSON value as a dict candidate record; the wire protocol's
`targets` entries are JSON objects. -/
def asRec : J → Option JObj
  | J.jobj kvs => some kvs
  | _ => none

/-- All elements of the `targets` array viewed as candidate records;
`none` models the exceptional paths where an element is not a dict. -/
def allRecs : List J → Option (List JObj)
  | [] => some []
  | x :: xs =>
    match asRec x, allRecs xs with
    | some r, some rs => some (r :: rs)
    | _, _ => none

/-- Model of `__handle_targets_update`.  Output: the (possibly empty) list of UI
callback invocations, each carrying the batch passed to
`self.__callback_on_targets_update`.  `none` models an exception escaping the
handler (a non-array `targets` value or a non-dict candidate), which in the
program propagates into the reader loop.  Note the handler never assigns
`self.__targets` and never calls `self.__update_ros_subs`. -/
def handle_targets_update (s : ManagerState) (data : JObj) :
    Option (ManagerState × List (List JObj)) :=
  match recLookup data "targets" with
  | none => some (s, [])
  | some (J.jarr xs) =>
    match allRecs xs with
    | none => none
    | some rs =>
      if rs.all hasRequiredFields then some (s, [rs]) else some (s, [])
  | some _ => none

/-- The key set of the subscription table `self.__ros_subs`. -/
def subKeys (subs : List (Int × Nat)) : List Int := subs.map Prod.fst

/-- Dict lookup in the subscription table. -/
def lookupSub (i : Int) : List (Int × Nat) → Option Nat
  | [] => none
  | p :: ps => if p.1 == i then some p.2 else lookupSub i ps

/-- The creation loop of `__update_ros_subs`: for each target whose id is not
yet a key of the table, create a fresh subscription (allocated at the counter)
and insert it.  Returns the new table, the new counter, and the ids for which
a subscription was created, in creation order. -/
def createPass (c : Nat) (subs : List (Int × Nat)) :
    List Target → List (Int × Nat) × Nat × List Int
  | [] => (subs, c, [])
  | t :: ts =>
    if subs.any (fun p => p.1 == t.id) then createPass c subs ts
    else
      ((createPass (c + 1) (subs ++ [(t.id, c)]) ts).1,
       (createPass (c + 1) (subs ++ [(t.id, c)]) ts).2.1,
       t.id :: (createPass (c + 1) (subs ++ [(t.id, c)]) ts).2.2)

/-- The observable subscription activity of one `__update_ros_subs` run. -/
structure SubEvents where
  destroyed : List Int
  created : List Int
deriving DecidableEq

/-- Model of `__update_ros_subs`: tear down every subscription whose id no longer
appears in `self.__targets`, then create one subscription per target id not
yet in the table.  The early return reflects the guard
`if not self.__is_ros_running and self.__ros_node`. -/
def update_ros_subs (s : ManagerState) : ManagerState × SubEvents :=
  if !s.is_ros_running && s.ros_node.isSome then (s, ⟨[], []⟩)
  else
    ({ s with
        ros_subs :=
          (createPass s.next_id
            (s.ros_subs.filter (fun p => s.targets.any (fun t => t.id == p.1)))
            s.targets).1,
        next_id :=
          (createPass s.next_id
            (s.ros_subs.filter (fun p => s.targets.any (fun t => t.id == p.1)))
            s.targets).2.1 },
     ⟨(s.ros_subs.filter (fun p => !s.targets.any (fun t => t.id == p.1))).map Prod.fst,
      (createPass s.next_id
        (s.ros_subs.filter (fun p => s.targets.any (fun t => t.id == p.1)))
        s.targets).2.2⟩)

/-- Model of `__stop_ros`: the ROS node and spin thread are discarded and the running
flag cleared; the subscription table `self.__ros_subs` is NOT cleared. -/
def stop_ros (s : ManagerState) : ManagerState :=
  { s with ros_node := none, ros_thread := none, is_ros_running := false }

/-- Model of `disconnect()`: join the reader thread, close and drop the serial handle,
clear the connected flag, then `__stop_ros`. -/
def disconnect (s : ManagerState) : ManagerState :=
  stop_ros { s with serial := none, is_connected := false,
                    read_serial_thread := none }

/-- Model of `__start_ros`: no-op if a node already exists; otherwise create a fresh
node and spin thread, set the running flag, and reconcile subscriptions. -/
def start_ros (s : ManagerState) : ManagerState × SubEvents :=
  if s.ros_node.isSome then (s, ⟨[], []⟩)
  else
    update_ros_subs
      { s with ros_node := some s.next_id, is_ros_running := true,
               ros_thread := some (s.next_id + 1), next_id := s.next_id + 2 }

/-- Model of `connect(port, baudrate)`: on a successful open (`openOk`), store a fresh
serial handle, set the connected flag, start a fresh reader thread, then
`__start_ros`; on an open failure the exception is caught and `False`
returned with no state change. -/
def connect (s : ManagerState) (openOk : Bool) : ManagerState × Bool :=
  if openOk then
    ((start_ros
        { s with serial := some s.next_id, is_connected := true,
                 read_serial_thread := some (s.next_id + 1),
                 next_id := s.next_id + 2 }).1,
     true)
  else (s, false)

/-- The `ChannelOverride` ROS message (`espkenisis_msgs.msg`), restricted to
the fields read by `__process_channel_override`. -/
structure ChannelOverride where
  channels : List Int
  duration : Int
  bypass_safety : Bool
deriving DecidableEq

/-- The outbound `override_channels` command dict built by
`__send_override_command`. -/
def overrideCommand (target_id : Int) (channels : List Int) (duration : Int) : JObj :=
  [("type", J.jstr "override_channels"),
   ("target_id", J.jint target_id),
   ("channels", J.jarr (channels.map J.jint)),
   ("duration", J.jint duration)]

/-- Model of `__send_override_command`.  Here `writeOk` is the outcome of
`self.__serial.write`; a write failure is caught and logged, the command is
dropped, and the state is left unchanged.  The output is what was written to
the transport, if anything. -/
def send_override_command (s : ManagerState) (target_id : Int)
    (channels : List Int) (duration : Int) (writeOk : Bool) :
    ManagerState × Option JObj :=
  if !s.is_connected || s.serial.isNone then (s, none)
  else if writeOk then (s, some (overrideCommand target_id channels duration))
  else (s, none)

/-- Model of `__process_channel_override`: drop when not connected; drop above the
16-channel hard cap; truncate to the first 4 channels when `bypass_safety`
is not set; then forward to `__send_override_command`. -/
def process_channel_override (s : ManagerState) (msg : ChannelOverride)
    (target_id : Int) (writeOk : Bool) : ManagerState × Option JObj :=
  if !s.is_connected then (s, none)
  else if msg.channels.length > 16 then (s, none)
  else
    send_override_command s target_id
      (if !msg.bypass_safety && msg.channels.length > 4
       then msg.channels.take 4 else msg.channels)
      msg.duration writeOk

/-- Is a UTF-8 continuation byte (0x80-0xBF). -/
def isCont (b : Nat) : Bool := 0x80 ≤ b && b ≤ 0xBF

/-- Valid second-byte range of a 3-byte sequence, by first byte (0xE0
excludes overlong forms, 0xED excludes surrogates). -/
def cont2Ok (b b2 : Nat) : Bool :=
  if b == 0xE0 then 0xA0 ≤ b2 && b2 ≤ 0xBF
  else if b == 0xED then 0x80 ≤ b2 && b2 ≤ 0x9F
  else isCont b2

/-- Valid second-byte range of a 4-byte sequence, by first byte (0xF0
excludes overlong forms, 0xF4 caps at U+10FFFF). -/
def cont4Ok (b b2 : Nat) : Bool :=
  if b == 0xF0 then 0x90 ≤ b2 && b2 ≤ 0xBF
  else if b == 0xF4 then 0x80 ≤ b2 && b2 ≤ 0x8F
  else isCont b2

/-- Length of the UTF-8 sequence introduced by a first byte (0 when the
byte cannot start a sequence). -/
def utf8Len (b : Nat) : Nat :=
  if b < 0x80 then 1
  else if 0xC2 ≤ b && b ≤ 0xDF then 2
  else if 0xE0 ≤ b && b ≤ 0xEF then 3
  else if 0xF0 ≤ b && b ≤ 0xF4 then 4
  else 0

/-- Are these the valid continuation bytes for the given first byte. -/
def contBytesOk (b : Nat) (cont : List Nat) : Bool :=
  match cont with
  | [] => b < 0x80
  | [b2] => (0xC2 ≤ b && b ≤ 0xDF) && isCont b2
  | [b2, b3] => (0xE0 ≤ b && b ≤ 0xEF) && cont2Ok b b2 && isCont b3
  | [b2, b3, b4] =>
    (0xF0 ≤ b && b ≤ 0xF4) && cont4Ok b b2 && isCont b3 && isCont b4
  | _ => false

/-- The scalar value encoded by a first byte and its continuation bytes. -/
def utf8Char (b : Nat) (cont : List Nat) : Char :=
  match cont with
  | [b2] => Char.ofNat ((b - 0xC0) * 0x40 + (b2 - 0x80))
  | [b2, b3] => Char.ofNat ((b - 0xE0) * 0x1000 + (b2 - 0x80) * 0x40
      + (b3 - 0x80))
  | [b2, b3, b4] => Char.ofNat ((b - 0xF0) * 0x40000 + (b2 - 0x80) * 0x1000
      + (b3 - 0x80) * 0x40 + (b4 - 0x80))
  | _ => Char.ofNat b

/-- Decode one UTF-8 sequence: the character and the remaining bytes, or
`none` when the bytes do not start with a valid complete sequence. -/
def decode1 (b : Nat) (rest : List Nat) : Option (Char × List Nat) :=
  if utf8Len b - 1 ≤ rest.length
      && contBytesOk b (rest.take (utf8Len b - 1)) then
    some (utf8Char b (rest.take (utf8Len b - 1)), rest.drop (utf8Len b - 1))
  else none

/-- Strict UTF-8 decoding of one whole byte chunk, as `bytes.decode()` does
for each separate serial read at manager.py:83: `none` models the
`UnicodeDecodeError` raised on an invalid or incomplete sequence — in
particular on a chunk whose final multi-byte sequence is cut short. -/
def utf8Decode (l : List Nat) : Option (List Char) :=
  match l with
  | [] => some []
  | b :: rest =>
    match hd : decode1 b rest with
    | none => none
    | some (c, r) =>
      have hlt : r.length < (b :: rest).length := by
        unfold decode1 at hd
        split at hd
        · cases hd
          simp [List.length_drop]
          omega
        · exact Option.noConfusion hd
      (utf8Decode r).map (fun cs => c :: cs)
termination_by l.length

/-- Decode every chunk of a partition separately, as the per-iteration
`.decode()` of `__read_serial` does; fails if any chunk is not valid
complete UTF-8 on its own. -/
def decodeChunks : List (List Nat) → Option (List (List Char))
  | [] => some []
  | c :: cs =>
    match utf8Decode c, decodeChunks cs with
    | some d, some ds => some (d :: ds)
    | _, _ => none

/-- What the reader loop observes in one iteration: newly available raw
bytes, or an exception from the transport read itself. -/
inductive ReadEvent where
  | chunk : List Nat → ReadEvent
  | rerr : ReadEvent

/-- One iteration of the `while self.__is_connected` loop of
`__read_serial`: the available bytes are decoded (`.decode()`), buffered and
split into lines; any exception — a transport read failure, or a
`UnicodeDecodeError` from a chunk that is not valid complete UTF-8 by
itself — is caught, logged, and clears `self.__is_connected`.  Returns the
new manager state, the new accumulator, and the emitted lines. -/
def read_serial_step (s : ManagerState) (buf : List Char) :
    ReadEvent → ManagerState × List Char × List (List Char)
  | ReadEvent.chunk bs =>
    match utf8Decode bs with
    | some cs => (s, (feedLines buf cs).1, (feedLines buf cs).2)
    | none => ({ s with is_connected := false }, buf, [])
  | ReadEvent.rerr => ({ s with is_connected := false }, buf, [])

/-- The guard of the reader loop: `while self.__is_connected`. -/
def readLoopRuns (s : ManagerState) : Bool := s.is_connected

/-- The externally triggered transitions of the manager. -/
inductive Event where
  | econnect : Bool → Event
  | edisconnect : Event
  | emsg : JObj → Event
  | ereadError : Event
  | eoverride : ChannelOverride → Int → Bool → Event

/-- State transition per event.  An exception escaping
`__handle_targets_update` propagates into the reader loop's catch-all, which
clears the connected flag, as does a transport read failure. -/
def step (s : ManagerState) : Event → ManagerState
  | Event.econnect ok => (connect s ok).1
  | Event.edisconnect => disconnect s
  | Event.emsg data =>
    match handle_targets_update s data with
    | some r => r.1
    | none => { s with is_connected := false }
  | Event.ereadError => { s with is_connected := false }
  | Event.eoverride msg tid w => (process_channel_override s msg tid w).1

/-- Manager states reachable from construction through any event sequence. -/
inductive Reachable : ManagerState → Prop where
  | init : Reachable initState
  | next : ∀ (s : ManagerState) (e : Event), Reachable s → Reachable (step s e)

/-- Freshness bookkeeping: every allocated object id stored in the state is
below the allocation counter. -/
def idsOk (s : ManagerState) : Prop :=
  (∀ n, s.serial = some n → n < s.next_id) ∧
  (∀ n, s.read_serial_thread = some n → n < s.next_id) ∧
  (∀ n, s.ros_node = some n → n < s.next_id) ∧
  (∀ n, s.ros_thread = some n → n < s.next_id) ∧
  (∀ p ∈ s.ros_subs, p.2 < s.next_id)

/-- A candidate target record carrying all eight required fields. -/
def sampleRec : JObj :=
  [("id", J.jint 1), ("name", J.jstr "alpha"), ("mac", J.jstr "AA:BB"),
   ("channels", J.jarr [J.jint 1500, J.jint 1500]),
   ("connection_state", J.jbool true), ("last_successful_send", J.jint 0),
   ("is_channels_overridden", J.jbool false),
   ("override_timeout_remaining", J.jint 0)]

/-- The same field names as `sampleRec` with every value replaced by `null`
(ill-typed values, well-formed field names). -/
def sampleRecNullVals : JObj :=
  [("id", J.null), ("name", J.null), ("mac", J.null), ("channels", J.null),
   ("connection_state", J.null), ("last_successful_send", J.null),
   ("is_channels_overridden", J.null), ("override_timeout_remaining", J.null)]

/-- A candidate record missing the required field `mac`. -/
def badRec : JObj :=
  [("id", J.jint 2), ("name", J.jstr "beta"),
   ("channels", J.jarr [J.jint 1500]), ("connection_state", J.jbool false),
   ("last_successful_send", J.jint 3),
   ("is_channels_overridden", J.jbool false),
   ("override_timeout_remaining", J.jint 0)]

/-- A fully valid `targets_update` message with one candidate record. -/
def sampleUpdate : JObj :=
  [("type", J.jstr "targets_update"), ("targets", J.jarr [J.jobj sampleRec])]

/-- A `targets_update` batch of two records in which exactly one record is
missing a required field. -/
def badUpdate : JObj :=
  [("type", J.jstr "targets_update"),
   ("targets", J.jarr [J.jobj sampleRec, J.jobj badRec])]

/-- A manager state as it stands right after a successful `connect`. -/
def connectedState : ManagerState :=
  { serial := some 0, is_connected := true, read_serial_thread := some 1,
    targets := [], ros_node := some 2, ros_thread := some 3, ros_subs := [],
    is_ros_running := true, next_id := 4 }

/-- A connected flag with no serial handle: the window in which the handle
was dropped between the safety check and the write. -/
def halfState : ManagerState :=
  { connectedState with serial := none }

/-- A concrete target whose only distinguishing content is its id. -/
def mkTarget (i : Int) : Target :=
  { id := i, name := "t", mac := "00:00", channels := [1500],
    connection_state := true, last_successful_send := 0,
    is_channels_overridden := false, override_timeout_remaining := 0 }

/-- The spec's reconciliation example: subscriptions for ids 1 and 2, a
registry with membership moving to ids 2 and 3. -/
def reconState : ManagerState :=
  { serial := some 0, is_connected := true, read_serial_thread := some 1,
    targets := [mkTarget 2, mkTarget 3], ros_node := some 2,
    ros_thread := some 3, ros_subs := [(1, 10), (2, 11)],
    is_ros_running := true, next_id := 20 }

/-- A 17-entry channel list, above the hard cap. -/
def seventeenChannels : List Int :=
  [1, 2, 3, 4, 5, 6, 7, 8, 9, 10, 11, 12, 13, 14, 15, 16, 17]

/-! Helper lemmas. -/

/-- The test `field in target` only inspects the key list of the record. -/
theorem recHasField_keys (r : JObj) (f : String) :
    recHasField r f = (r.map Prod.fst).any (fun k => k == f) := by
  induction r with
  | nil => rfl
  | cons kv rest ih =>
    simp only [recHasField, List.any_cons, List.map_cons] at ih ⊢
    rw [ih]

/-- The test `field in target` is monotone under appending further fields. -/
theorem recHasField_append (r extra : JObj) (f : String)
    (h : recHasField r f = true) : recHasField (r ++ extra) f = true := by
  unfold recHasField at h ⊢
  rw [List.any_append, h]
  rfl

/-! Claim theorems. -/

/-- C1: handling a valid `targets_update` is claimed to replace the registry
with the new set, invoke the UI callback, and trigger reconciliation.  The
code only invokes the UI callback: evaluated on a fully valid batch, the
handler returns the manager state UNCHANGED (the registry `targets` is not
replaced, the subscription table is untouched, and no reconciliation is
performed — the handler's output carries no subscription activity at all)
while the callback does receive the batch. -/
theorem targets_update_only_invokes_callback :
    hasRequiredFields sampleRec = true ∧
    handle_targets_update connectedState sampleUpdate
      = some (connectedState, [[sampleRec]]) ∧
    connectedState.targets = [] :=
  ⟨rfl, rfl, rfl⟩

/-- C3: a `targets_update` batch in which at least one candidate record is
missing a required field is rejected atomically: the state (registry and
subscription table included) is exactly the input state and the UI callback
is not invoked. -/
theorem invalid_batch_rejected_atomically (s : ManagerState) (data : JObj)
    (xs : List J) (rs : List JObj) (r : JObj)
    (hT : recLookup data "targets" = some (J.jarr xs))
    (hrs : allRecs xs = some rs)
    (hmem : r ∈ rs) (hbad : hasRequiredFields r = false) :
    handle_targets_update s data = some (s, []) := by
  have hall : rs.all hasRequiredFields = false := by
    rw [List.all_eq_false]
    exact ⟨r, hmem, by simp [hbad]⟩
  unfold handle_targets_update
  simp only [hT, hrs, hall]
  rfl

/-- C3 witness: a two-record batch whose second record is missing `mac`. -/
theorem invalid_batch_rejected_atomically_witness :
    handle_targets_update connectedState badUpdate
      = some (connectedState, []) :=
  invalid_batch_rejected_atomically connectedState badUpdate
    [J.jobj sampleRec, J.jobj badRec] [sampleRec, badRec] badRec rfl rfl
    (List.mem_cons_of_mem sampleRec (List.mem_cons_self badRec []))
    rfl

/-- C4: an override request with more than 16 channels produces no outbound
command and changes no state, for every `bypass_safety` value (the message is
universally quantified) and every connection state. -/
theorem override_hard_cap_drops (s : ManagerState) (msg : ChannelOverride)
    (target_id : Int) (writeOk : Bool)
    (h : msg.channels.length > 16) :
    process_channel_override s msg target_id writeOk = (s, none) := by
  by_cases hc : s.is_connected
  · simp [process_channel_override, hc, h]
  · simp [process_channel_override, hc]

/-- C4 witness: 17 channels with `bypass_safety = true` are dropped. -/
theorem override_hard_cap_drops_witness :
    process_channel_override connectedState
      ⟨seventeenChannels, 1000, true⟩ 5 true = (connectedState, none) :=
  override_hard_cap_drops connectedState ⟨seventeenChannels, 1000, true⟩ 5 true
    (by decide)

/-- C5: with `bypass_safety = false` and a channel list of length in (4, 16],
the outbound command carries exactly the first 4 input channels in order,
with `target_id` and `duration` forwarded unchanged, and the state is
untouched. -/
theorem override_safety_clamp_truncates (s : ManagerState)
    (msg : ChannelOverride) (target_id : Int) (n : Nat)
    (hc : s.is_connected = true) (hs : s.serial = some n)
    (hb : msg.bypass_safety = false)
    (h4 : 4 < msg.channels.length) (h16 : msg.channels.length ≤ 16) :
    process_channel_override s msg target_id true
      = (s, some (overrideCommand target_id (msg.channels.take 4) msg.duration)) := by
  have h16' : ¬ msg.channels.length > 16 := by omega
  simp [process_channel_override, hc, hb, h16', h4, send_override_command, hs]

/-- C5 witness: five channels are clamped to the first four. -/
theorem override_safety_clamp_truncates_witness :
    process_channel_override connectedState
      ⟨[10, 20, 30, 40, 50], 2000, false⟩ 7 true
      = (connectedState, some (overrideCommand 7 [10, 20, 30, 40] 2000)) :=
  override_safety_clamp_truncates connectedState
    ⟨[10, 20, 30, 40, 50], 2000, false⟩ 7 0 rfl rfl rfl (by decide) (by decide)

/-- C8: an exception in the reader loop clears the connected flag, so the
`while self.__is_connected` guard fails and the reader activity ends; a write
failure in `__send_override_command` leaves the state (the connection flag
included) unchanged and produces no outbound data, and the function returns
normally. -/
theorem read_error_disconnects_write_error_does_not :
    (∀ (s : ManagerState) (buf : List Char),
        (read_serial_step s buf ReadEvent.rerr).1.is_connected = false ∧
        readLoopRuns (read_serial_step s buf ReadEvent.rerr).1 = false) ∧
    (∀ (s : ManagerState) (target_id : Int) (channels : List Int)
        (duration : Int) (n : Nat),
        s.is_connected = true → s.serial = some n →
        send_override_command s target_id channels duration false = (s, none)) := by
  constructor
  · intro s buf
    exact ⟨rfl, rfl⟩
  · intro s tid ch d n hc hs
    simp [send_override_command, hc, hs]

/-- C8 witness: a read error while connected, and a failed write while
connected. -/
theorem read_error_disconnects_write_error_does_not_witness :
    (read_serial_step connectedState [] ReadEvent.rerr).1.is_connected = false ∧
    send_override_command connectedState 1 [1500] 500 false
      = (connectedState, none) :=
  ⟨(read_error_disconnects_write_error_does_not.1 connectedState []).1,
   read_error_disconnects_write_error_does_not.2 connectedState 1 [1500] 500 0
     rfl rfl⟩

/-- C9: batch validation looks only at the presence of the eight required
field names.  Any record with the same field names (whatever its values —
they are never type-checked) gets the same verdict, and appending arbitrary
extra fields to an accepted record keeps it accepted. -/
theorem validation_checks_only_field_presence (r r' extra : JObj)
    (hkeys : r.map Prod.fst = r'.map Prod.fst)
    (hok : hasRequiredFields r = true) :
    hasRequiredFields r' = true ∧ hasRequiredFields (r ++ extra) = true := by
  unfold hasRequiredFields at hok ⊢
  rw [List.all_eq_true] at hok
  constructor
  · rw [List.all_eq_true]
    intro f hf
    rw [recHasField_keys, ← hkeys, ← recHasField_keys]
    exact hok f hf
  · rw [List.all_eq_true]
    intro f hf
    exact recHasField_append r extra f (hok f hf)

/-- C9 witness: all-null values and an unknown extra field are accepted. -/
theorem validation_checks_only_field_presence_witness :
    hasRequiredFields sampleRecNullVals = true ∧
    hasRequiredFields (sampleRec ++ [("extra_field", J.null)]) = true :=
  validation_checks_only_field_presence sampleRec sampleRecNullVals
    [("extra_field", J.null)] rfl rfl

/-- C10: an override delivered while the connected flag is down is dropped
with no outbound write and no state change; likewise the outbound path itself
drops the command when the flag has been cleared or the serial handle removed
between the safety check and the write. -/
theorem override_dropped_when_disconnected :
    (∀ (s : ManagerState) (msg : ChannelOverride) (target_id : Int)
        (writeOk : Bool),
        s.is_connected = false →
        process_channel_override s msg target_id writeOk = (s, none)) ∧
    (∀ (s : ManagerState) (target_id : Int) (channels : List Int)
        (duration : Int) (writeOk : Bool),
        s.is_connected = false ∨ s.serial = none →
        send_override_command s target_id channels duration writeOk
          = (s, none)) := by
  constructor
  · intro s msg tid w hc
    simp [process_channel_override, hc]
  · intro s tid ch d w h
    rcases h with h | h
    · simp [send_override_command, h]
    · simp [send_override_command, h]

/-- C10 witness: a drop in the fresh (disconnected) state, and a drop when
the handle vanished after the safety check. -/
theorem override_dropped_when_disconnected_witness :
    process_channel_override initState ⟨[1500], 100, false⟩ 1 true
      = (initState, none) ∧
    send_override_command halfState 1 [10, 20] 100 true = (halfState, none) :=
  ⟨override_dropped_when_disconnected.1 initState ⟨[1500], 100, false⟩ 1 true
     rfl,
   override_dropped_when_disconnected.2 halfState 1 [10, 20] 100 true
     (Or.inr rfl)⟩

/-! Line codec lemmas (the buffering logic of `__read_serial`). -/

/-- Splitting a concatenation combines the two splits by gluing the first
delivery's trailing segment onto the second delivery's first segment. -/
theorem splitNl_append (a b : List Char) :
    splitNl (a ++ b) = mergeSplit (splitNl a) (splitNl b) := by
  induction a with
  | nil =>
    rcases hb : splitNl b with ⟨sb, tb⟩
    cases sb with
    | nil => simp [splitNl, mergeSplit, hb]
    | cons q qs => simp [splitNl, mergeSplit, hb]
  | cons c a ih =>
    rcases ha : splitNl a with ⟨sa, ta⟩
    rcases hb : splitNl b with ⟨sb, tb⟩
    rw [ha, hb] at ih
    by_cases hc : c = '\n'
    · subst hc
      cases sb <;> simp [splitNl, ih, ha, hb, mergeSplit]
    · cases sa <;> cases sb <;>
        simp [splitNl, ih, ha, hb, mergeSplit, hc, List.append_assoc]

/-- The retained (final) segment of a split never contains a newline. -/
theorem splitNl_tail_no_nl (l : List Char) : ∀ c ∈ (splitNl l).2, c ≠ '\n' := by
  induction l with
  | nil => intro c hc; simp [splitNl] at hc
  | cons d l ih =>
    by_cases hd : d = '\n'
    · subst hd
      simpa [splitNl] using ih
    · rcases hl : splitNl l with ⟨sl, tl⟩
      rw [hl] at ih
      cases sl with
      | nil =>
        intro c hc
        simp [splitNl, hd, hl] at hc
        rcases hc with rfl | hc
        · exact hd
        · exact ih c hc
      | cons q qs =>
        intro c hc
        simp [splitNl, hd, hl] at hc
        exact ih c hc

/-- A newline-free text splits into no complete segment and itself. -/
theorem noNl_splitNl (l : List Char) (h : ∀ c ∈ l, c ≠ '\n') :
    splitNl l = ([], l) := by
  induction l with
  | nil => rfl
  | cons d l ih =>
    have hd : d ≠ '\n' := h d (List.mem_cons_self d l)
    have ih' := ih (fun c hc => h c (List.mem_cons_of_mem d hc))
    simp [splitNl, hd, ih']

/-- Strip-and-drop-empties distributes over segment concatenation. -/
theorem emitLines_append (xs ys : List (List Char)) :
    emitLines (xs ++ ys) = emitLines xs ++ emitLines ys := by
  simp [emitLines, List.filter_append]

/-- One buffered feed of a concatenation equals two consecutive feeds:
the emitted lines concatenate and the accumulators chain. -/
theorem feedLines_append (buf a b : List Char) :
    feedLines buf (a ++ b)
      = ((feedLines (feedLines buf a).1 b).1,
         (feedLines buf a).2 ++ (feedLines (feedLines buf a).1 b).2) := by
  have h1 : splitNl (buf ++ (a ++ b))
      = mergeSplit (splitNl (buf ++ a)) (splitNl b) := by
    rw [← List.append_assoc, splitNl_append]
  have h2 : splitNl ((splitNl (buf ++ a)).2 ++ b)
      = mergeSplit ([], (splitNl (buf ++ a)).2) (splitNl b) := by
    rw [splitNl_append, noNl_splitNl _ (splitNl_tail_no_nl (buf ++ a))]
  rcases hab : splitNl (buf ++ a) with ⟨sa, ta⟩
  rcases hb : splitNl b with ⟨sb, tb⟩
  rw [hab, hb] at h1 h2
  cases sb with
  | nil => simp [feedLines, h1, h2, hab, hb, mergeSplit, emitLines_append, emitLines]
  | cons q qs => simp [feedLines, h1, h2, hab, hb, mergeSplit, emitLines_append]

/-- Feeding any chunk sequence equals feeding its concatenation whole, for
any newline-free starting accumulator. -/
theorem feedChunks_join (chunks : List (List Char)) :
    ∀ buf, (∀ c ∈ buf, c ≠ '\n') →
      feedChunks buf chunks = feedLines buf chunks.flatten := by
  induction chunks with
  | nil =>
    intro buf hb
    simp [feedChunks, feedLines, noNl_splitNl buf hb, emitLines]
  | cons c cs ih =>
    intro buf hb
    have hb' : ∀ x ∈ (feedLines buf c).1, x ≠ '\n' := by
      simp only [feedLines]
      exact splitNl_tail_no_nl (buf ++ c)
    rw [List.flatten_cons, feedLines_append]
    simp [feedChunks, ih (feedLines buf c).1 hb']

/-- Unfolding of the decoder at the empty chunk. -/
theorem utf8Decode_nil : utf8Decode [] = some [] := by
  unfold utf8Decode
  rfl

/-- Unfolding of the decoder when the first sequence is invalid or cut
short. -/
theorem utf8Decode_cons_none (b : Nat) (rest : List Nat)
    (h : decode1 b rest = none) : utf8Decode (b :: rest) = none := by
  unfold utf8Decode
  split
  · rfl
  · rename_i c r hd
    rw [h] at hd
    exact Option.noConfusion hd

/-- Unfolding of the decoder when the first sequence decodes. -/
theorem utf8Decode_cons_some (b : Nat) (rest : List Nat) (c : Char)
    (r : List Nat) (h : decode1 b rest = some (c, r)) :
    utf8Decode (b :: rest) = (utf8Decode r).map (fun cs => c :: cs) := by
  conv_lhs => unfold utf8Decode
  split
  · rename_i hd
    rw [h] at hd
    exact Option.noConfusion hd
  · rename_i c' r' hd
    rw [h] at hd
    cases hd
    rfl

/-- A sequence that decodes at the head of a chunk decodes identically when
more bytes follow. -/
theorem decode1_append (b : Nat) (rest bs : List Nat) (c : Char)
    (r : List Nat) (h : decode1 b rest = some (c, r)) :
    decode1 b (rest ++ bs) = some (c, r ++ bs) := by
  unfold decode1 at h ⊢
  split at h
  · rename_i hcond
    cases h
    have hk : utf8Len b - 1 ≤ rest.length := by
      have h1 := ((Bool.and_eq_true _ _).mp hcond).1
      simpa using h1
    have hok : contBytesOk b (rest.take (utf8Len b - 1)) = true :=
      ((Bool.and_eq_true _ _).mp hcond).2
    rw [List.take_append_of_le_length hk, List.drop_append_of_le_length hk]
    have hcond2 : (utf8Len b - 1 ≤ (rest ++ bs).length
        && contBytesOk b (rest.take (utf8Len b - 1))) = true := by
      simp only [List.length_append, hok, Bool.and_true]
      simp
      omega
    rw [if_pos hcond2]
  · exact Option.noConfusion h

/-- A byte chunk that is valid complete UTF-8 on its own decodes as a prefix
of any larger stream: decoding the concatenation prepends its characters. -/
theorem utf8Decode_append (bs : List Nat) :
    ∀ a xs, utf8Decode a = some xs →
      utf8Decode (a ++ bs) = (utf8Decode bs).map (fun ys => xs ++ ys) := by
  intro a
  induction a using utf8Decode.induct with
  | case1 =>
    intro xs h
    rw [utf8Decode_nil] at h
    cases h
    show utf8Decode bs = _
    cases hbs : utf8Decode bs <;> simp
  | case2 b rest hd =>
    intro xs h
    rw [utf8Decode_cons_none b rest hd] at h
    exact Option.noConfusion h
  | case3 b rest c r hd hlt ih =>
    intro xs h
    rw [utf8Decode_cons_some b rest c r hd] at h
    cases hr : utf8Decode r with
    | none => rw [hr] at h; exact Option.noConfusion h
    | some cs =>
      rw [hr] at h
      simp only [Option.map_some', Option.some.injEq] at h
      subst h
      show utf8Decode (b :: (rest ++ bs)) = _
      rw [utf8Decode_cons_some b (rest ++ bs) c (r ++ bs)
        (decode1_append b rest bs c r hd), ih cs hr]
      cases utf8Decode bs <;> simp

/-- When every chunk of a partition decodes on its own, the whole stream
decodes to the concatenation of the per-chunk decodings. -/
theorem decodeChunks_flatten (chunks : List (List Nat)) :
    ∀ dec, decodeChunks chunks = some dec →
      utf8Decode chunks.flatten = some dec.flatten := by
  induction chunks with
  | nil =>
    intro dec h
    cases h
    exact utf8Decode_nil
  | cons c cs ih =>
    intro dec h
    unfold decodeChunks at h
    split at h
    · rename_i d ds hc hcs
      cases h
      rw [List.flatten_cons, utf8Decode_append cs.flatten c d hc, ih ds hcs]
      simp
    · exact Option.noConfusion h

/-- C7 counterexample: the byte stream `"é\n"` (`[0xC3, 0xA9, 0x0A]`) fed
whole decodes and yields the single line `"é"`, but the partition
`[[0xC3], [0xA9, 0x0A]]` splits the two-byte UTF-8 sequence: its first chunk
alone fails `.decode()`, and the reader-loop iteration on that chunk emits
no line and clears the connected flag (ending the loop) — not the same
decoded lines as feeding the stream whole. -/
theorem line_codec_chunking_not_byte_invariant :
    utf8Decode [0xC3, 0xA9, 0x0A] = some ['é', '\n'] ∧
    (feedLines [] ['é', '\n']).2 = [['é']] ∧
    decodeChunks [[0xC3], [0xA9, 0x0A]] = none ∧
    (read_serial_step connectedState []
      (ReadEvent.chunk [0xC3])).1.is_connected = false ∧
    readLoopRuns (read_serial_step connectedState []
      (ReadEvent.chunk [0xC3])).1 = false ∧
    (read_serial_step connectedState [] (ReadEvent.chunk [0xC3])).2.2 = [] := by
  have h1 : utf8Decode [0xC3] = none :=
    utf8Decode_cons_none 0xC3 [] (by decide)
  have h2 : utf8Decode [0xC3, 0xA9, 0x0A] = some ['é', '\n'] := by
    rw [utf8Decode_cons_some 0xC3 [0xA9, 0x0A] 'é' [0x0A] (by decide),
      utf8Decode_cons_some 0x0A [] '\n' [] (by decide), utf8Decode_nil]
    rfl
  refine ⟨h2, by decide, ?_, ?_, ?_, ?_⟩
  · simp [decodeChunks, h1]
  · simp [read_serial_step, h1]
  · simp [read_serial_step, readLoopRuns, h1]
  · simp [read_serial_step, h1]

/-- C7 (amended): for every byte stream and every partition of it into
chunks in which each chunk is valid complete UTF-8 on its own (no chunk
boundary splits a multi-byte sequence), feeding the per-chunk decodings one
at a time through the reader's line buffering emits exactly the lines
(stripped, non-empty) and final accumulator of feeding the whole stream at
once — whose decoding is the concatenation of the per-chunk decodings — and
the retained accumulator is the trailing incomplete segment, never
containing a newline. -/
theorem line_codec_chunking_invariant_decoded (chunks : List (List Nat))
    (dec : List (List Char)) (h : decodeChunks chunks = some dec) :
    utf8Decode chunks.flatten = some dec.flatten ∧
    feedChunks [] dec = feedLines [] dec.flatten ∧
    ∀ c ∈ (feedChunks [] dec).1, c ≠ '\n' := by
  refine ⟨decodeChunks_flatten chunks dec h, ?_, ?_⟩
  · exact feedChunks_join dec [] (by intro c hc; simp at hc)
  · rw [feedChunks_join dec [] (by intro c hc; simp at hc)]
    show ∀ c ∈ (splitNl ([] ++ dec.flatten)).2, c ≠ '\n'
    exact splitNl_tail_no_nl ([] ++ dec.flatten)

/-- C7 witness: the same stream partitioned at the character boundary
instead: both chunks decode, and chunked feeding emits the same single
line as feeding the whole stream. -/
theorem line_codec_chunking_invariant_decoded_witness :
    decodeChunks [[0xC3, 0xA9], [0x0A]] = some [['é'], ['\n']] ∧
    utf8Decode [[0xC3, 0xA9], [0x0A]].flatten
      = some [['é'], ['\n']].flatten ∧
    feedChunks [] [['é'], ['\n']] = feedLines [] [['é'], ['\n']].flatten := by
  have he1 : utf8Decode [0xC3, 0xA9] = some ['é'] := by
    rw [utf8Decode_cons_some 0xC3 [0xA9] 'é' [] (by decide), utf8Decode_nil]
    rfl
  have he2 : utf8Decode [0x0A] = some ['\n'] := by
    rw [utf8Decode_cons_some 0x0A [] '\n' [] (by decide), utf8Decode_nil]
    rfl
  have hdec : decodeChunks [[0xC3, 0xA9], [0x0A]] = some [['é'], ['\n']] := by
    simp [decodeChunks, he1, he2]
  exact ⟨hdec,
    (line_codec_chunking_invariant_decoded [[0xC3, 0xA9], [0x0A]]
      [['é'], ['\n']] hdec).1,
    (line_codec_chunking_invariant_decoded [[0xC3, 0xA9], [0x0A]]
      [['é'], ['\n']] hdec).2.1⟩

/-! Subscription reconciliation lemmas (`__update_ros_subs`). -/

/-- The `any` test used by the creation loop is key membership. -/
theorem any_key_eq (subs : List (Int × Nat)) (i : Int) :
    (subs.any (fun p => p.1 == i)) = true ↔ i ∈ subKeys subs := by
  simp [subKeys, List.any_eq_true, List.mem_map]

/-- The `any` test used by the removal loop is registry membership. -/
theorem any_target_eq (ts : List Target) (i : Int) :
    (ts.any (fun t => t.id == i)) = true ↔ ∃ t ∈ ts, t.id = i := by
  simp [List.any_eq_true]

/-- Key membership in a key-determined filter of the table. -/
theorem mem_filter_keys (subs : List (Int × Nat)) (f : Int → Bool) (i : Int) :
    i ∈ subKeys (subs.filter (fun p => f p.1))
      ↔ i ∈ subKeys subs ∧ f i = true := by
  simp only [subKeys, List.mem_map, List.mem_filter]
  constructor
  · rintro ⟨p, ⟨hp, hf⟩, rfl⟩
    exact ⟨⟨p, hp, rfl⟩, hf⟩
  · rintro ⟨⟨p, hp, rfl⟩, hf⟩
    exact ⟨p, ⟨hp, hf⟩, rfl⟩

/-- Filtering the table keeps its keys duplicate-free. -/
theorem filter_keys_nodup (subs : List (Int × Nat)) (q : Int × Nat → Bool)
    (h : (subKeys subs).Nodup) : (subKeys (subs.filter q)).Nodup := by
  have hsub : List.Sublist ((subs.filter q).map Prod.fst) (subs.map Prod.fst) :=
    List.Sublist.map _ (List.filter_sublist subs)
  exact List.Nodup.sublist hsub h

/-- Dict lookup ignores a trailing extension when the key is already
present. -/
theorem lookupSub_append (i : Int) (l' : List (Int × Nat)) :
    ∀ subs, i ∈ subKeys subs → lookupSub i (subs ++ l') = lookupSub i subs := by
  intro subs
  induction subs with
  | nil =>
    intro h
    simp [subKeys] at h
  | cons p ps ih =>
    intro h
    by_cases hp : (p.1 == i) = true
    · simp [lookupSub, hp]
    · have hne : p.1 ≠ i := by simpa [beq_iff_eq] using hp
      have h' : i ∈ subKeys ps := by
        have hcons : i ∈ p.1 :: subKeys ps := h
        rcases List.mem_cons.mp hcons with h0 | h0
        · exact absurd h0.symm hne
        · exact h0
      simp [lookupSub, hp, ih h']

/-- Dict lookup is unchanged by a filter that keeps every pair at the looked
up key. -/
theorem lookupSub_filter (i : Int) (q : Int × Nat → Bool) :
    ∀ subs, (∀ p ∈ subs, p.1 = i → q p = true) →
      lookupSub i (subs.filter q) = lookupSub i subs := by
  intro subs
  induction subs with
  | nil => intro h; rfl
  | cons p ps ih =>
    intro h
    have hrest := ih (fun p' hp' => h p' (List.mem_cons_of_mem p hp'))
    by_cases hq : q p = true
    · by_cases hp : (p.1 == i) = true
      · simp [List.filter_cons, hq, lookupSub, hp]
      · simp [List.filter_cons, hq, lookupSub, hp, hrest]
    · have hp1 : ¬ (p.1 == i) = true := by
        intro hc
        exact hq (h p (List.mem_cons_self p ps) (beq_iff_eq.mp hc))
      have hq' : q p = false := by
        cases hqq : q p
        · rfl
        · exact absurd hqq hq
      simp [List.filter_cons, hq', lookupSub, hp1, hrest]

/-- The creation loop appends exactly the created ids to the key list. -/
theorem cp_keys (ts : List Target) :
    ∀ c subs, subKeys (createPass c subs ts).1
      = subKeys subs ++ (createPass c subs ts).2.2 := by
  induction ts with
  | nil =>
    intro c subs
    simp [createPass]
  | cons t ts ih =>
    intro c subs
    by_cases h : (subs.any (fun p => p.1 == t.id)) = true
    · simp [createPass, h, ih]
    · simp only [createPass, h, Bool.false_eq_true, if_false]
      rw [ih]
      simp [subKeys]

/-- A subscription is created exactly for the target ids not yet in the
table. -/
theorem cp_created_mem (ts : List Target) :
    ∀ c subs (i : Int), i ∈ (createPass c subs ts).2.2
      ↔ (∃ t ∈ ts, t.id = i) ∧ i ∉ subKeys subs := by
  induction ts with
  | nil =>
    intro c subs i
    simp [createPass]
  | cons t ts ih =>
    intro c subs i
    by_cases h : (subs.any (fun p => p.1 == t.id)) = true
    · have hk : t.id ∈ subKeys subs := (any_key_eq subs t.id).mp h
      have hcp : createPass c subs (t :: ts) = createPass c subs ts := by
        simp [createPass, h]
      rw [hcp, ih]
      constructor
      · rintro ⟨⟨t', ht', rfl⟩, hnk⟩
        exact ⟨⟨t', List.mem_cons_of_mem t ht', rfl⟩, hnk⟩
      · rintro ⟨⟨t', ht', rfl⟩, hnk⟩
        rcases List.mem_cons.mp ht' with rfl | ht''
        · exact absurd hk hnk
        · exact ⟨⟨t', ht'', rfl⟩, hnk⟩
    · have h' : t.id ∉ subKeys subs := fun hmem => h ((any_key_eq subs t.id).mpr hmem)
      have hcp : (createPass c subs (t :: ts)).2.2
          = t.id :: (createPass (c + 1) (subs ++ [(t.id, c)]) ts).2.2 := by
        simp [createPass, h]
      have hkeys : subKeys (subs ++ [(t.id, c)]) = subKeys subs ++ [t.id] := by
        simp [subKeys]
      rw [hcp, List.mem_cons, ih, hkeys]
      constructor
      · rintro (rfl | ⟨⟨t', ht', rfl⟩, hnk⟩)
        · exact ⟨⟨t, List.mem_cons_self t ts, rfl⟩, h'⟩
        · refine ⟨⟨t', List.mem_cons_of_mem t ht', rfl⟩, fun hk' => hnk ?_⟩
          exact List.mem_append_left _ hk'
      · rintro ⟨⟨t', ht', rfl⟩, hnk⟩
        by_cases hit : t'.id = t.id
        · exact Or.inl hit
        · right
          rcases List.mem_cons.mp ht' with rfl | ht''
          · exact absurd rfl hit
          · refine ⟨⟨t', ht'', rfl⟩, fun hk' => ?_⟩
            rcases List.mem_append.mp hk' with hk' | hk'
            · exact hnk hk'
            · exact hit (List.mem_singleton.mp hk')

/-- No id is created twice in one reconciliation. -/
theorem cp_created_nodup (ts : List Target) :
    ∀ c subs, ((createPass c subs ts).2.2).Nodup := by
  induction ts with
  | nil =>
    intro c subs
    simp [createPass]
  | cons t ts ih =>
    intro c subs
    by_cases h : (subs.any (fun p => p.1 == t.id)) = true
    · have hcp : createPass c subs (t :: ts) = createPass c subs ts := by
        simp [createPass, h]
      rw [hcp]
      exact ih c subs
    · have hcp : (createPass c subs (t :: ts)).2.2
          = t.id :: (createPass (c + 1) (subs ++ [(t.id, c)]) ts).2.2 := by
        simp [createPass, h]
      rw [hcp]
      have hnm : t.id ∉ (createPass (c + 1) (subs ++ [(t.id, c)]) ts).2.2 := by
        rw [cp_created_mem]
        rintro ⟨-, hnk⟩
        exact hnk (by simp [subKeys])
      exact List.nodup_cons.mpr ⟨hnm, ih _ _⟩

/-- The creation loop never replaces an existing subscription object. -/
theorem cp_lookup (ts : List Target) :
    ∀ c subs (i : Int), i ∈ subKeys subs →
      lookupSub i (createPass c subs ts).1 = lookupSub i subs := by
  induction ts with
  | nil =>
    intro c subs i h
    simp [createPass]
  | cons t ts ih =>
    intro c subs i h
    by_cases hmem : (subs.any (fun p => p.1 == t.id)) = true
    · have hcp : (createPass c subs (t :: ts)).1 = (createPass c subs ts).1 := by
        simp [createPass, hmem]
      rw [hcp]
      exact ih c subs i h
    · have hcp : (createPass c subs (t :: ts)).1
          = (createPass (c + 1) (subs ++ [(t.id, c)]) ts).1 := by
        simp [createPass, hmem]
      have h2 : i ∈ subKeys (subs ++ [(t.id, c)]) := by
        rw [subKeys, List.map_append]
        exact List.mem_append_left _ h
      rw [hcp, ih (c + 1) (subs ++ [(t.id, c)]) i h2,
        lookupSub_append i [(t.id, c)] subs h]

/-- When every target id is already subscribed, the creation loop does
nothing. -/
theorem cp_skip_all (ts : List Target) :
    ∀ c subs, (∀ t ∈ ts, t.id ∈ subKeys subs) →
      createPass c subs ts = (subs, c, []) := by
  induction ts with
  | nil =>
    intro c subs h
    rfl
  | cons t ts ih =>
    intro c subs h
    have hm : (subs.any (fun p => p.1 == t.id)) = true :=
      (any_key_eq subs t.id).mpr (h t (List.mem_cons_self t ts))
    have hcp : createPass c subs (t :: ts) = createPass c subs ts := by
      simp [createPass, hm]
    rw [hcp]
    exact ih c subs (fun t' ht' => h t' (List.mem_cons_of_mem t ht'))

/-- Boolean/propositional form of "no target carries this id". -/
theorem not_any_target_eq (ts : List Target) (i : Int) :
    ((!ts.any (fun t => t.id == i)) = true) ↔ ¬ ∃ t ∈ ts, t.id = i := by
  rw [← any_target_eq]
  cases h : ts.any (fun t => t.id == i) <;> simp

/-- Unfolding of `__update_ros_subs` when the ROS integration is running. -/
theorem update_ros_subs_eq (s : ManagerState) (hrun : s.is_ros_running = true) :
    update_ros_subs s
      = ({ s with
            ros_subs := (createPass s.next_id
              (s.ros_subs.filter (fun p => s.targets.any (fun t => t.id == p.1)))
              s.targets).1,
            next_id := (createPass s.next_id
              (s.ros_subs.filter (fun p => s.targets.any (fun t => t.id == p.1)))
              s.targets).2.1 },
         ⟨(s.ros_subs.filter
             (fun p => !s.targets.any (fun t => t.id == p.1))).map Prod.fst,
          (createPass s.next_id
            (s.ros_subs.filter (fun p => s.targets.any (fun t => t.id == p.1)))
            s.targets).2.2⟩) := by
  unfold update_ros_subs
  rw [hrun]
  rfl

/-- A reconciliation whose table already matches the registry exactly
performs no create or destroy activity. -/
theorem update_ros_subs_quiet (s : ManagerState)
    (hrun : s.is_ros_running = true)
    (hall : ∀ p ∈ s.ros_subs, (s.targets.any (fun t => t.id == p.1)) = true)
    (htid : ∀ t ∈ s.targets, t.id ∈ subKeys s.ros_subs) :
    (update_ros_subs s).2 = ⟨[], []⟩ := by
  rw [update_ros_subs_eq s hrun]
  have hnil : s.ros_subs.filter
      (fun p => !s.targets.any (fun t => t.id == p.1)) = [] := by
    rw [List.filter_eq_nil_iff]
    intro p hp
    simp [hall p hp]
  have hself : s.ros_subs.filter
      (fun p => s.targets.any (fun t => t.id == p.1)) = s.ros_subs :=
    List.filter_eq_self.mpr hall
  simp only [hnil, hself, List.map_nil]
  rw [cp_skip_all s.targets _ _ htid]

/-- C6: one reconciliation run destroys exactly the subscriptions whose ids
are absent from the registry (each once), creates exactly one subscription
per registry id not yet subscribed, and keeps the very same subscription
object for every id present in both; a second run against the same registry
performs no create or destroy activity. -/
theorem reconcile_exact_diff_and_idempotent (s : ManagerState)
    (hrun : s.is_ros_running = true)
    (hnd : (subKeys s.ros_subs).Nodup) :
    (∀ i : Int, i ∈ (update_ros_subs s).2.destroyed
        ↔ i ∈ subKeys s.ros_subs ∧ ¬ ∃ t ∈ s.targets, t.id = i) ∧
    ((update_ros_subs s).2.destroyed).Nodup ∧
    (∀ i : Int, i ∈ (update_ros_subs s).2.created
        ↔ (∃ t ∈ s.targets, t.id = i) ∧ i ∉ subKeys s.ros_subs) ∧
    ((update_ros_subs s).2.created).Nodup ∧
    (∀ i : Int, i ∈ subKeys s.ros_subs → (∃ t ∈ s.targets, t.id = i) →
        lookupSub i ((update_ros_subs s).1.ros_subs) = lookupSub i s.ros_subs) ∧
    (update_ros_subs (update_ros_subs s).1).2 = ⟨[], []⟩ := by
  rw [update_ros_subs_eq s hrun]
  refine ⟨?_, ?_, ?_, ?_, ?_, ?_⟩
  · intro i
    show i ∈ subKeys (s.ros_subs.filter
      (fun p => !s.targets.any (fun t => t.id == p.1))) ↔ _
    rw [mem_filter_keys s.ros_subs
      (fun j => !s.targets.any (fun t => t.id == j)) i,
      not_any_target_eq]
  · exact filter_keys_nodup s.ros_subs _ hnd
  · intro i
    show i ∈ (createPass s.next_id
      (s.ros_subs.filter (fun p => s.targets.any (fun t => t.id == p.1)))
      s.targets).2.2 ↔ _
    rw [cp_created_mem]
    constructor
    · rintro ⟨hex, hnk⟩
      refine ⟨hex, fun hk => hnk ?_⟩
      rw [mem_filter_keys s.ros_subs
        (fun j => s.targets.any (fun t => t.id == j)) i]
      exact ⟨hk, (any_target_eq s.targets i).mpr hex⟩
    · rintro ⟨hex, hnk⟩
      refine ⟨hex, fun hk => hnk ?_⟩
      exact ((mem_filter_keys s.ros_subs
        (fun j => s.targets.any (fun t => t.id == j)) i).mp hk).1
  · exact cp_created_nodup s.targets _ _
  · intro i hk hex
    have hkk : i ∈ subKeys (s.ros_subs.filter
        (fun p => s.targets.any (fun t => t.id == p.1))) := by
      rw [mem_filter_keys s.ros_subs
        (fun j => s.targets.any (fun t => t.id == j)) i]
      exact ⟨hk, (any_target_eq s.targets i).mpr hex⟩
    show lookupSub i (createPass s.next_id
      (s.ros_subs.filter (fun p => s.targets.any (fun t => t.id == p.1)))
      s.targets).1 = _
    rw [cp_lookup s.targets s.next_id _ i hkk]
    exact lookupSub_filter i _ s.ros_subs
      (fun p hp hpi => by rw [hpi]; exact (any_target_eq s.targets i).mpr hex)
  · have hallkeys : ∀ i ∈ subKeys (createPass s.next_id
        (s.ros_subs.filter (fun p => s.targets.any (fun t => t.id == p.1)))
        s.targets).1, (s.targets.any (fun t => t.id == i)) = true := by
      intro i hi
      rw [cp_keys] at hi
      rcases List.mem_append.mp hi with hi | hi
      · exact ((mem_filter_keys s.ros_subs
          (fun j => s.targets.any (fun t => t.id == j)) i).mp hi).2
      · rcases (cp_created_mem s.targets _ _ i).mp hi with ⟨hex, -⟩
        exact (any_target_eq s.targets i).mpr hex
    have htid : ∀ t ∈ s.targets, t.id ∈ subKeys (createPass s.next_id
        (s.ros_subs.filter (fun p => s.targets.any (fun t => t.id == p.1)))
        s.targets).1 := by
      intro t ht
      rw [cp_keys]
      by_cases hk : t.id ∈ subKeys (s.ros_subs.filter
        (fun p => s.targets.any (fun t => t.id == p.1)))
      · exact List.mem_append_left _ hk
      · refine List.mem_append_right _ ?_
        exact (cp_created_mem s.targets _ _ t.id).mpr ⟨⟨t, ht, rfl⟩, hk⟩
    exact update_ros_subs_quiet _ hrun
      (fun p hp => hallkeys p.1 (List.mem_map_of_mem Prod.fst hp)) htid

/-- C6 witness: subscriptions for ids 1 and 2 against registry {2, 3}:
id 1 destroyed, id 3 created, id 2's object kept; a second run is quiet. -/
theorem reconcile_exact_diff_and_idempotent_witness :
    reconState.is_ros_running = true ∧
    (subKeys reconState.ros_subs).Nodup ∧
    (update_ros_subs reconState).2 = ⟨[1], [3]⟩ ∧
    lookupSub 2 ((update_ros_subs reconState).1.ros_subs)
      = lookupSub 2 reconState.ros_subs ∧
    (update_ros_subs (update_ros_subs reconState).1).2 = ⟨[], []⟩ :=
  ⟨rfl, by decide, by decide,
   (reconcile_exact_diff_and_idempotent reconState rfl (by decide)).2.2.2.2.1 2
     (by decide) ⟨mkTarget 2, by decide, rfl⟩,
   (reconcile_exact_diff_and_idempotent reconState rfl (by decide)).2.2.2.2.2⟩

/-! Lifecycle and reachability lemmas. -/

/-- The allocation counter never decreases across a creation loop. -/
theorem cp_ctr_le (ts : List Target) :
    ∀ c subs, c ≤ (createPass c subs ts).2.1 := by
  induction ts with
  | nil =>
    intro c subs
    simp [createPass]
  | cons t ts ih =>
    intro c subs
    by_cases h : (subs.any (fun p => p.1 == t.id)) = true
    · have hcp : createPass c subs (t :: ts) = createPass c subs ts := by
        simp [createPass, h]
      rw [hcp]
      exact ih c subs
    · have hcp : (createPass c subs (t :: ts)).2.1
          = (createPass (c + 1) (subs ++ [(t.id, c)]) ts).2.1 := by
        simp [createPass, h]
      rw [hcp]
      exact Nat.le_trans (Nat.le_succ c) (ih (c + 1) _)

/-- All subscription objects in the resulting table were allocated below the
resulting counter. -/
theorem cp_vals_lt (ts : List Target) :
    ∀ c subs, (∀ p ∈ subs, p.2 < c) →
      ∀ p ∈ (createPass c subs ts).1, p.2 < (createPass c subs ts).2.1 := by
  induction ts with
  | nil =>
    intro c subs h p hp
    have hp' : p ∈ subs := by simpa [createPass] using hp
    simpa [createPass] using h p hp'
  | cons t ts ih =>
    intro c subs h
    by_cases hm : (subs.any (fun p => p.1 == t.id)) = true
    · have hcp : createPass c subs (t :: ts) = createPass c subs ts := by
        simp [createPass, hm]
      rw [hcp]
      exact ih c subs h
    · have e1 : (createPass c subs (t :: ts)).1
          = (createPass (c + 1) (subs ++ [(t.id, c)]) ts).1 := by
        simp [createPass, hm]
      have e2 : (createPass c subs (t :: ts)).2.1
          = (createPass (c + 1) (subs ++ [(t.id, c)]) ts).2.1 := by
        simp [createPass, hm]
      rw [e1, e2]
      apply ih (c + 1) (subs ++ [(t.id, c)])
      intro p hp
      rcases List.mem_append.mp hp with hp | hp
      · exact Nat.lt_trans (h p hp) (Nat.lt_succ_self c)
      · rcases List.mem_singleton.mp hp with rfl
        exact Nat.lt_succ_self c

/-- The outbound path never mutates the manager state. -/
theorem send_override_command_state (s : ManagerState) (tid : Int)
    (ch : List Int) (d : Int) (w : Bool) :
    (send_override_command s tid ch d w).1 = s := by
  unfold send_override_command
  split
  · rfl
  · split
    · rfl
    · rfl

/-- The override callback never mutates the manager state. -/
theorem process_channel_override_state (s : ManagerState)
    (msg : ChannelOverride) (tid : Int) (w : Bool) :
    (process_channel_override s msg tid w).1 = s := by
  unfold process_channel_override
  split
  · rfl
  · split
    · rfl
    · exact send_override_command_state s tid _ msg.duration w

/-- The handler `__handle_targets_update` returns the state it was given whenever it
returns at all. -/
theorem handle_targets_update_state (s : ManagerState) (data : JObj)
    (r : ManagerState × List (List JObj))
    (h : handle_targets_update s data = some r) : r.1 = s := by
  unfold handle_targets_update at h
  split at h
  · cases h
    rfl
  · split at h
    · exact Option.noConfusion h
    · split at h
      · cases h
        rfl
      · cases h
        rfl
  · exact Option.noConfusion h

/-- Reconciliation only rewrites the subscription table and the allocation
counter. -/
theorem update_ros_subs_fields (s : ManagerState) :
    (update_ros_subs s).1.targets = s.targets ∧
    (update_ros_subs s).1.serial = s.serial ∧
    (update_ros_subs s).1.is_connected = s.is_connected ∧
    (update_ros_subs s).1.read_serial_thread = s.read_serial_thread ∧
    (update_ros_subs s).1.ros_node = s.ros_node ∧
    (update_ros_subs s).1.ros_thread = s.ros_thread ∧
    (update_ros_subs s).1.is_ros_running = s.is_ros_running := by
  unfold update_ros_subs
  split
  · exact ⟨rfl, rfl, rfl, rfl, rfl, rfl, rfl⟩
  · exact ⟨rfl, rfl, rfl, rfl, rfl, rfl, rfl⟩

/-- Starting ROS (`__start_ros`) never touches the registry. -/
theorem start_ros_targets (s : ManagerState) :
    (start_ros s).1.targets = s.targets := by
  unfold start_ros
  split
  · rfl
  · exact ((update_ros_subs_fields _).1).trans rfl

/-- Connecting never touches the registry. -/
theorem connect_targets (s : ManagerState) (ok : Bool) :
    (connect s ok).1.targets = s.targets := by
  cases ok
  · rfl
  · exact (start_ros_targets _).trans rfl

/-- No transition writes the registry: `self.__targets` is assigned only in
`__init__`. -/
theorem step_targets (s : ManagerState) (e : Event) :
    (step s e).targets = s.targets := by
  cases e with
  | econnect ok => exact connect_targets s ok
  | edisconnect => rfl
  | emsg data =>
    show (match handle_targets_update s data with
      | some r => r.1
      | none => { s with is_connected := false }).targets = s.targets
    cases hh : handle_targets_update s data with
    | none => rfl
    | some r =>
      show r.1.targets = s.targets
      rw [handle_targets_update_state s data r hh]
  | ereadError => rfl
  | eoverride msg tid w =>
    show (process_channel_override s msg tid w).1.targets = s.targets
    rw [process_channel_override_state]

/-- In every reachable state the registry is empty: no code path ever stores
a validated batch into `self.__targets`. -/
theorem reachable_targets_nil (s : ManagerState) (h : Reachable s) :
    s.targets = [] := by
  induction h with
  | init => rfl
  | next s' e h' ih =>
    rw [step_targets s' e, ih]

/-- Reconciliation preserves the freshness bookkeeping. -/
theorem update_ros_subs_idsOk (s : ManagerState) (h : idsOk s) :
    idsOk (update_ros_subs s).1 := by
  obtain ⟨h1, h2, h3, h4, h5⟩ := h
  unfold update_ros_subs
  split
  · exact ⟨h1, h2, h3, h4, h5⟩
  · have hkept : ∀ p ∈ s.ros_subs.filter
        (fun p => s.targets.any (fun t => t.id == p.1)), p.2 < s.next_id :=
      fun p hp => h5 p (List.mem_filter.mp hp).1
    have hle : s.next_id ≤ (createPass s.next_id
        (s.ros_subs.filter (fun p => s.targets.any (fun t => t.id == p.1)))
        s.targets).2.1 := cp_ctr_le s.targets s.next_id _
    refine ⟨?_, ?_, ?_, ?_, ?_⟩
    · exact fun n hn => Nat.lt_of_lt_of_le (h1 n hn) hle
    · exact fun n hn => Nat.lt_of_lt_of_le (h2 n hn) hle
    · exact fun n hn => Nat.lt_of_lt_of_le (h3 n hn) hle
    · exact fun n hn => Nat.lt_of_lt_of_le (h4 n hn) hle
    · exact fun p hp => cp_vals_lt s.targets s.next_id _ hkept p hp

/-- Starting ROS preserves the freshness bookkeeping. -/
theorem start_ros_idsOk (s : ManagerState) (h : idsOk s) :
    idsOk (start_ros s).1 := by
  unfold start_ros
  split
  · exact h
  · apply update_ros_subs_idsOk
    obtain ⟨h1, h2, h3, h4, h5⟩ := h
    refine ⟨?_, ?_, ?_, ?_, ?_⟩
    · exact fun n hn => Nat.lt_of_lt_of_le (h1 n hn) (Nat.le_add_right _ 2)
    · exact fun n hn => Nat.lt_of_lt_of_le (h2 n hn) (Nat.le_add_right _ 2)
    · intro n hn
      have he := Option.some.inj hn
      show n < s.next_id + 2
      omega
    · intro n hn
      have he := Option.some.inj hn
      show n < s.next_id + 2
      omega
    · exact fun p hp => Nat.lt_of_lt_of_le (h5 p hp) (Nat.le_add_right _ 2)

/-- Connecting preserves the freshness bookkeeping. -/
theorem connect_idsOk (s : ManagerState) (ok : Bool) (h : idsOk s) :
    idsOk (connect s ok).1 := by
  cases ok
  · exact h
  · apply start_ros_idsOk
    obtain ⟨h1, h2, h3, h4, h5⟩ := h
    refine ⟨?_, ?_, ?_, ?_, ?_⟩
    · intro n hn
      have he := Option.some.inj hn
      show n < s.next_id + 2
      omega
    · intro n hn
      have he := Option.some.inj hn
      show n < s.next_id + 2
      omega
    · exact fun n hn => Nat.lt_of_lt_of_le (h3 n hn) (Nat.le_add_right _ 2)
    · exact fun n hn => Nat.lt_of_lt_of_le (h4 n hn) (Nat.le_add_right _ 2)
    · exact fun p hp => Nat.lt_of_lt_of_le (h5 p hp) (Nat.le_add_right _ 2)

/-- Disconnecting preserves the freshness bookkeeping. -/
theorem disconnect_idsOk (s : ManagerState) (h : idsOk s) :
    idsOk (disconnect s) := by
  obtain ⟨h1, h2, h3, h4, h5⟩ := h
  exact ⟨fun n hn => Option.noConfusion hn, fun n hn => Option.noConfusion hn,
    fun n hn => Option.noConfusion hn, fun n hn => Option.noConfusion hn, h5⟩

/-- Every transition preserves the freshness bookkeeping. -/
theorem step_idsOk (s : ManagerState) (e : Event) (h : idsOk s) :
    idsOk (step s e) := by
  cases e with
  | econnect ok => exact connect_idsOk s ok h
  | edisconnect => exact disconnect_idsOk s h
  | emsg data =>
    show idsOk (match handle_targets_update s data with
      | some r => r.1
      | none => { s with is_connected := false })
    cases hh : handle_targets_update s data with
    | none => exact ⟨h.1, h.2.1, h.2.2.1, h.2.2.2.1, h.2.2.2.2⟩
    | some r =>
      show idsOk r.1
      rw [handle_targets_update_state s data r hh]
      exact h
  | ereadError => exact ⟨h.1, h.2.1, h.2.2.1, h.2.2.2.1, h.2.2.2.2⟩
  | eoverride msg tid w =>
    show idsOk (process_channel_override s msg tid w).1
    rw [process_channel_override_state]
    exact h

/-- Every reachable state satisfies the freshness bookkeeping. -/
theorem reachable_idsOk (s : ManagerState) (h : Reachable s) : idsOk s := by
  induction h with
  | init =>
    exact ⟨fun n hn => Option.noConfusion hn, fun n hn => Option.noConfusion hn,
      fun n hn => Option.noConfusion hn, fun n hn => Option.noConfusion hn,
      fun p hp => absurd hp (List.not_mem_nil p)⟩
  | next s' e h' ih => exact step_idsOk s' e ih

/-- C2: from any reachable state, `disconnect()` followed by `connect()`
(with a successful open) leaves the manager `Connected` with a fresh reader
thread and a fresh ROS spin thread (both newly allocated, distinct from any
prior session's), an empty subscription table, and an empty registry. -/
theorem reconnect_fresh_state (s : ManagerState) (h : Reachable s) :
    (connect (disconnect s) true).1.is_connected = true ∧
    (connect (disconnect s) true).1.read_serial_thread
      = some (s.next_id + 1) ∧
    (connect (disconnect s) true).1.ros_thread = some (s.next_id + 3) ∧
    (connect (disconnect s) true).1.read_serial_thread
      ≠ s.read_serial_thread ∧
    (connect (disconnect s) true).1.ros_thread ≠ s.ros_thread ∧
    (connect (disconnect s) true).1.ros_subs = [] ∧
    (connect (disconnect s) true).1.targets = [] := by
  have ht := reachable_targets_nil s h
  have hids := reachable_idsOk s h
  have hstate : (connect (disconnect s) true).1
      = { serial := some s.next_id, is_connected := true,
          read_serial_thread := some (s.next_id + 1), targets := [],
          ros_node := some (s.next_id + 2),
          ros_thread := some (s.next_id + 3), ros_subs := [],
          is_ros_running := true, next_id := s.next_id + 4 } := by
    simp [connect, disconnect, stop_ros, start_ros, update_ros_subs, ht,
      createPass]
  have hfresh1 : some (s.next_id + 1) ≠ s.read_serial_thread := by
    cases hthread : s.read_serial_thread with
    | none => simp
    | some k =>
      have hk := hids.2.1 k hthread
      intro hc
      have he := Option.some.inj hc
      omega
  have hfresh2 : some (s.next_id + 3) ≠ s.ros_thread := by
    cases hthread : s.ros_thread with
    | none => simp
    | some k =>
      have hk := hids.2.2.2.1 k hthread
      intro hc
      have he := Option.some.inj hc
      omega
  rw [hstate]
  exact ⟨rfl, rfl, rfl, hfresh1, hfresh2, rfl, rfl⟩

/-- C2 witness: reconnecting from the freshly constructed manager. -/
theorem reconnect_fresh_state_witness :
    (connect (disconnect initState) true).1.is_connected = true ∧
    (connect (disconnect initState) true).1.ros_subs = [] ∧
    (connect (disconnect initState) true).1.targets = [] :=
  ⟨(reconnect_fresh_state initState Reachable.init).1,
   (reconnect_fresh_state initState Reachable.init).2.2.2.2.2.1,
   (reconnect_fresh_state initState Reachable.init).2.2.2.2.2.2⟩
